import Mathlib

set_option linter.unusedVariables false

/-!
Verification development for the gowut server-side web UI toolkit (package gwu).

The file embeds the relevant Go functions as executable Lean definitions,
staying as close as possible to the source (files and functions are cited in
the doc comments), and then proves the specified properties about them.

Modelling conventions:
- machine integers (`int`, `int64`, the component `ID` type) are `Int`,
  with explicit two's-complement wrapping where the source can overflow;
- Go `map` values are association lists with map-style lookup and update;
  Go slices are `List`;
- a Go `nil`-pointer dereference (a runtime panic) is modelled by an
  `Option` result being `none`.
-/

namespace Gwu

/-! ## Decimal formatting and parsing (gwu/id.go: `ID.String`, `AtoID`;
modelling Go `strconv.Itoa` / `strconv.Atoi`). -/

/-- Character for a decimal digit value (0-9). -/
def digitChar (n : Nat) : Char := Char.ofNat (48 + n)

/-- Decimal digit characters of a natural number, most significant first
(the digits produced by `strconv.Itoa` for a non-negative value). -/
def natDigits (n : Nat) : List Char :=
  if n < 10 then [digitChar n]
  else natDigits (n / 10) ++ [digitChar (n % 10)]
termination_by n
decreasing_by exact Nat.div_lt_self (by omega) (by omega)

/-- Value of a decimal digit character, `none` for a non-digit
(`strconv.Atoi` fails on any non-digit rune). -/
def digitVal (c : Char) : Option Nat :=
  if 48 ≤ c.toNat ∧ c.toNat ≤ 57 then some (c.toNat - 48) else none

/-- Accumulating decimal parser over a character list. -/
def parseDigitsAux : List Char → Nat → Option Nat
  | [], acc => some acc
  | c :: cs, acc =>
    match digitVal c with
    | some d => parseDigitsAux cs (acc * 10 + d)
    | none => none

/-- Parses a non-empty all-digit character list to its value
(`strconv.Atoi` rejects an empty digit sequence). -/
def parseDigits (l : List Char) : Option Nat :=
  if l.isEmpty then none else parseDigitsAux l 0

/-- Smallest Go `int64` value. -/
def int64Min : Int := -(2 ^ 63)

/-- Largest Go `int64` value. -/
def int64Max : Int := 2 ^ 63 - 1

/-- Model of Go `strconv.Atoi` on a 64-bit platform: an optional sign
followed by at least one decimal digit, rejecting any other character and
any value outside the `int64` range (`strconv.ErrRange`).  gwu/id.go
`AtoID` forwards to this and returns the error unchanged (`none` here). -/
def atoi (s : String) : Option Int :=
  match s.data with
  | [] => none
  | c :: cs =>
    let neg : Bool := c == '-'
    let ds : List Char := if c == '-' || c == '+' then cs else c :: cs
    match parseDigits ds with
    | none => none
    | some n =>
      let v : Int := if neg then -(n : Int) else (n : Int)
      if int64Min ≤ v ∧ v ≤ int64Max then some v else none

/-- Model of Go `strconv.Itoa` (gwu/id.go `ID.String` stringifies the id
this way, in base 10). -/
def intToString (i : Int) : String :=
  if i < 0 then String.mk ('-' :: natDigits i.natAbs)
  else String.mk (natDigits i.natAbs)

/-! ## Component id allocation (gwu/id.go: `lastID`, `nextCompID`).

The counter is a Go `int64` updated with `atomic.AddInt64(&lastID, 1)`,
starting at the zero value, so the addition wraps in two's complement. -/

/-- Two's-complement wrap of an integer into the `int64` range. -/
def wrap64 (n : Int) : Int := (n + 2 ^ 63) % 2 ^ 64 - 2 ^ 63

/-- Model of `atomic.AddInt64(&lastID, delta)`: returns the new value. -/
def addInt64 (lastID delta : Int) : Int := wrap64 (lastID + delta)

/-- Model of gwu/id.go `nextCompID`: increments the package counter and
returns the new value together with the new counter state. -/
def nextCompID (lastID : Int) : Int × Int :=
  let v := addInt64 lastID 1
  (v, v)

/-- Counter state after `n` allocations (initial Go zero value is 0). -/
def allocState : Nat → Int
  | 0 => 0
  | n + 1 => (nextCompID (allocState n)).2

/-- Value returned by allocation number `n` (0-based). -/
def allocValue (n : Nat) : Int := (nextCompID (allocState n)).1

/-! ## Style class list operations (gwu/style.go: `styleImpl.AddClass`,
`styleImpl.SetClass`, `styleImpl.RemoveClass`).  The `classes` field is a
Go slice of strings; only its value as a list is relevant here (the
source's in-place backing-array cleanup does not change that value). -/

/-- gwu/style.go `AddClass`: appends the class name. -/
def addClass (classes : List String) (cl : String) : List String :=
  classes ++ [cl]

/-- gwu/style.go `SetClass`: truncates the list and appends the class name
when it is non-empty. -/
def setClass (classes : List String) (cl : String) : List String :=
  if cl.length > 0 then [cl] else []

/-- gwu/style.go `RemoveClass`: deletes the first occurrence of the class
name (the loop breaks after the first match). -/
def removeClass : List String → String → List String
  | [], _ => []
  | c :: cs, cl => if c = cl then cs else c :: removeClass cs cl

/-! ## Dirty-component set (gwu/event.go: `eventImpl.MarkDirty`,
`sharedEvtData.dirty`; gwu/comp.go: `compImpl.DescendantOf`).

Components are represented by their ids.  `DescendantOf` walks the parent
links comparing ids; during one event dispatch the tree is fixed, so the
chain of ancestor ids of each component is given by a fixed environment
`anc : Int → List Int` (invariant (b) of the spec makes each chain a
finite path).  The dirty map `map[ID]Comp` keyed by component id is a
duplicate-free list of ids. -/

/-- gwu/comp.go `DescendantOf`: true iff some ancestor of `c` has the id
of `c2`. -/
def descendantOf (anc : Int → List Int) (c c2 : Int) : Bool :=
  (anc c).contains c2

/-- gwu/event.go `sharedEvtData.dirty`: a component is dirty when its id is
a key of the dirty map (first class) or it descends from a member (second
class). -/
def isDirty (anc : Int → List Int) (s : List Int) (c2 : Int) : Bool :=
  s.contains c2 || s.any (fun c => descendantOf anc c2 c)

/-- Loop body of gwu/event.go `MarkDirty` for a single component: when the
component is not yet dirty, all members descending from it are deleted and
then the component is inserted. -/
def markDirtyComp (anc : Int → List Int) (s : List Int) (comp : Int) : List Int :=
  if isDirty anc s comp then s
  else (s.filter (fun c => !(descendantOf anc c comp))) ++ [comp]

/-- gwu/event.go `MarkDirty(comps ...Comp)`: iterates the loop body. -/
def markDirty (anc : Int → List Int) (s : List Int) (comps : List Int) : List Int :=
  comps.foldl (markDirtyComp anc) s

/-- Dirty set after a finite sequence of `MarkDirty` calls on an event
(the shared record starts with an empty dirty map, `newEventImpl`). -/
def runMarkDirty (anc : Int → List Int) (calls : List (List Int)) : List Int :=
  calls.foldl (markDirty anc) []

/-- Minimization property of a dirty set: no member is a descendant of a
different member. -/
def minimalDirty (anc : Int → List Int) (s : List Int) : Prop :=
  ∀ a ∈ s, ∀ b ∈ s, a ≠ b → descendantOf anc a b = false

/-! ## Shared post-event record and response encoding (gwu/event.go:
`sharedEvtData`, `ReloadWin`, `SetFocusedComp`; server `handleEvent`
response tail, gwu/server.go lines 706-737 and the same code in the
unnamed server file).  Action codes: 0 no-op, 1 reload window, 2 dirty
components, 3 focus component. -/

/-- Post-event fields of gwu/event.go `sharedEvtData` relevant to the
response encoding. -/
structure SharedEvtData where
  reload : Bool
  reloadWin : String
  dirtyComps : List Int
  focusedComp : Option Int
deriving DecidableEq, Repr

/-- Fresh shared record built by `newEventImpl`: empty dirty map, zero
values elsewhere. -/
def newSharedEvtData : SharedEvtData :=
  { reload := false, reloadWin := "", dirtyComps := [], focusedComp := none }

/-- Calls a handler can make on the event that affect the response. -/
inductive EOp where
  | markDirtyOp : List Int → EOp
  | reloadWinOp : String → EOp
  | setFocusedCompOp : Int → EOp
deriving DecidableEq, Repr

/-- Effect of one handler call on the shared record (gwu/event.go
`MarkDirty`, `ReloadWin`, `SetFocusedComp`). -/
def applyOp (anc : Int → List Int) (s : SharedEvtData) : EOp → SharedEvtData
  | EOp.markDirtyOp comps => { s with dirtyComps := markDirty anc s.dirtyComps comps }
  | EOp.reloadWinOp name => { s with reload := true, reloadWin := name }
  | EOp.setFocusedCompOp c => { s with focusedComp := some c }

/-- Effect of a sequence of handler calls during one dispatch. -/
def applyOps (anc : Int → List Int) (ops : List EOp) (s : SharedEvtData) : SharedEvtData :=
  ops.foldl (applyOp anc) s

/-- Name passed to the last `ReloadWin` call of the sequence, if any. -/
def lastReload : List EOp → Option String
  | [] => none
  | EOp.reloadWinOp n :: rest => some ((lastReload rest).getD n)
  | _ :: rest => lastReload rest

/-- Dirty action written by `handleEvent`: the code 2 followed by a comma
before each dirty component id. -/
def dirtyAction (ids : List Int) : String :=
  "2" ++ String.join (ids.map (fun i => "," ++ intToString i))

/-- Response body written by the tail of `serverImpl.handleEvent`: when a
reload was requested only the reload action is written; otherwise the
dirty action (when the dirty map is non-empty), a semicolon, and the focus
action (when a focus target is set); when nothing was written, the no-op
action. -/
def eventResponseBody (s : SharedEvtData) : String :=
  if s.reload then "1," ++ s.reloadWin
  else
    let p1 : String × Bool :=
      if s.dirtyComps.length > 0 then (dirtyAction s.dirtyComps, true) else ("", false)
    let p2 : String × Bool :=
      match s.focusedComp with
      | some f => (p1.1 ++ (if p1.2 then ";" else "") ++ "3," ++ intToString f, true)
      | none => p1
    if p2.2 then p2.1 else "0"

/-- Modelled from the spec: the no-reload response is the dirty action
first (omitted if the dirty set is empty), the focus action second
(omitted if no focus is set), and a single no-op action when neither is
present.  Used as the specification side of the encoding theorem. -/
def eventResponseSpec (s : SharedEvtData) : String :=
  match s.dirtyComps, s.focusedComp with
  | [], none => "0"
  | ds, none => dirtyAction ds
  | [], some f => "3," ++ intToString f
  | ds, some f => dirtyAction ds ++ ";" ++ "3," ++ intToString f

/-! ## Component trees and panel containers (gwu/comp.go: `Comp`,
`compImpl`; gwu/panel.go: `panelImpl.Add`, `panelImpl.Remove`,
`panelImpl.ById`, `panelImpl.CompIdx`).

A component is its id plus, when it is a container, the list of its
children (used by the recursive `ById`).  The parent back-pointers that
`setParent` mutates live in a separate association list `parents` from
component id to parent id (a `nil` parent is an absent key). -/

/-- Component value: a leaf component or a container with children. -/
inductive GComp : Type where
  | leaf : Int → GComp
  | cont : Int → List GComp → GComp

/-- Identifier of a component (gwu/comp.go `Id`; `Equals` compares these). -/
def GComp.id : GComp → Int
  | GComp.leaf i => i
  | GComp.cont i _ => i

/-- gwu/panel.go `ById` over a child list: each child is compared by id and
containers are searched recursively, returning the first hit. -/
def byIdList (i : Int) : List GComp → Option GComp
  | [] => none
  | c :: cs =>
    if c.id = i then some c
    else
      match c with
      | GComp.leaf _ => byIdList i cs
      | GComp.cont _ sub =>
        match byIdList i sub with
        | some r => some r
        | none => byIdList i cs

/-- All component ids occurring in a list of component trees. -/
def compIdsList : List GComp → List Int
  | [] => []
  | GComp.leaf i :: cs => i :: compIdsList cs
  | GComp.cont i sub :: cs => i :: (compIdsList sub ++ compIdsList cs)

/-- Accumulator loop of gwu/panel.go `CompIdx` (components are compared by
`Equals`, that is by id). -/
def compIdxAux (cid : Int) : List GComp → Int → Int
  | [], _ => -1
  | c :: cs, k => if c.id = cid then k else compIdxAux cid cs (k + 1)

/-- gwu/panel.go `CompIdx`: index of the first child with the given id,
-1 when there is none. -/
def compIdx (comps : List GComp) (cid : Int) : Int :=
  compIdxAux cid comps 0

/-- State of a `panelImpl` together with the world of parent pointers of
the components involved: panel id, ordered children, ids that own a cell
formatter record, and the parent map written by `setParent`. -/
structure PanelSt where
  pid : Int
  comps : List GComp
  cellFmts : List Int
  parents : List (Int × Int)

/-- Parent lookup (`Comp.Parent()`; absent key is a nil parent). -/
def lookupPar (ps : List (Int × Int)) (i : Int) : Option Int :=
  match ps.find? (fun p => p.1 = i) with
  | some p => some p.2
  | none => none

/-- Parent-map update performed by `setParent(parent)`. -/
def setPar (ps : List (Int × Int)) (i par : Int) : List (Int × Int) :=
  (ps.filter (fun p => p.1 ≠ i)) ++ [(i, par)]

/-- Parent-map update performed by `setParent(nil)`. -/
def erasePar (ps : List (Int × Int)) (i : Int) : List (Int × Int) :=
  ps.filter (fun p => p.1 ≠ i)

/-- gwu/panel.go `Add`: appends the component and sets its parent.  The
preceding `c2.makeOrphan()` is a no-op when the component has no parent;
the theorems below assume that (the general case would mutate a different
container, which is outside this single-panel state). -/
def panelAdd (st : PanelSt) (c : GComp) : PanelSt :=
  { st with comps := st.comps ++ [c], parents := setPar st.parents c.id st.pid }

/-- gwu/panel.go `Remove`: when the component is a child, deletes its cell
formatter record, clears its parent and removes it from the child list;
returns whether it was removed. -/
def panelRemove (st : PanelSt) (c : GComp) : PanelSt × Bool :=
  let i := compIdx st.comps c.id
  if i < 0 then (st, false)
  else
    ({ st with cellFmts := st.cellFmts.filter (fun x => x ≠ c.id),
               parents := erasePar st.parents c.id,
               comps := st.comps.eraseIdx i.toNat }, true)

/-- gwu/panel.go `ById` on the panel itself: the panel's own id is checked
first, then the children recursively. -/
def panelById (st : PanelSt) (i : Int) : Option GComp :=
  if st.pid = i then some (GComp.cont st.pid st.comps)
  else byIdList i st.comps

/-! ## Event request protocol checks (server `handleEvent`, unnamed server
file lines 735-760 and gwu/server.go lines 650-675; gwu/event.go:
`EventType.Category`). -/

/-- Server `parseIntParam`: `strconv.Atoi`, with -1 on any error. -/
def parseIntParam (s : String) : Int :=
  match atoi s with
  | some n => n
  | none => -1

/-- Fields of an incoming event request used by the protocol checks. -/
structure EventRequest where
  fcid : String
  cid : String
  et : String
deriving DecidableEq, Repr

/-- Outcome of the protocol checks of `handleEvent`: an HTTP 400 with a
plain-text explanation (no handler runs), or dispatch of the event to the
resolved component. -/
inductive EventOutcome where
  | badRequest : String → EventOutcome
  | dispatched : Int → Int → EventOutcome
deriving DecidableEq, Repr

/-- Tells whether an outcome is the HTTP 400 branch. -/
def isBadRequest : EventOutcome → Bool
  | EventOutcome.badRequest _ => true
  | EventOutcome.dispatched _ _ => false

/-- Protocol checks of server `handleEvent` in source order: `fcid` parse
errors are ignored; an unparseable `cid` is a 400; an id with no component
in the window is a 400; a negative parsed event type (missing or
unparseable fields decode to -1) is a 400; otherwise the event is
dispatched.  The window searches components with the panel `ById`. -/
def handleEventCheck (win : PanelSt) (r : EventRequest) : EventOutcome :=
  match atoi r.cid with
  | none => EventOutcome.badRequest "Invalid component id!"
  | some cid =>
    match panelById win cid with
    | none => EventOutcome.badRequest ("Component not found: " ++ intToString cid)
    | some _ =>
      let etype := parseIntParam r.et
      if etype < 0 then EventOutcome.badRequest "Invalid event type!"
      else EventOutcome.dispatched cid etype

/-- gwu/event.go `EventType.Category`: 0 for the general types (codes 0-12,
click through focus), 1 for the window types (13-14), 2 for the internal
type (15), and -1 (`ECAT_UNKNOWN`) otherwise. -/
def eventTypeCategory (etype : Int) : Int :=
  if 0 ≤ etype ∧ etype ≤ 12 then 0
  else if 13 ≤ etype ∧ etype ≤ 14 then 1
  else if etype = 15 then 2
  else -1

/-- Concrete window used to settle the protocol claim: window id 1 holding
one component with id 5. -/
def winEx : PanelSt :=
  { pid := 1, comps := [GComp.leaf 5], cellFmts := [], parents := [(5, 1)] }

/-! ## Session requests and the session-check path (unnamed server file,
`serveHTTP` lines 542-655; gwu/session.go: `sessionImpl`, `access`).

The function below covers `serveHTTP` from the point where the application
path prefix has been stripped (`parts`) and the cookie has been resolved
to a session.  Branches that serve a different session (the public-window
fallback of a private session, and the session-creator auto-creation) are
reported in the result — the state of those other sessions is outside this
single-session view. -/

/-- Session state (gwu/session.go `sessionImpl`): id (empty for the public
session), new flag, creation and last-accessed times (nanoseconds),
windows by name (window values abstracted to ids), user attributes, and
the timeout (nanoseconds). -/
structure SessSt where
  sid : String
  isNew : Bool
  created : Int
  accessed : Int
  windows : List (String × Int)
  attrs : List (String × Int)
  timeout : Int
deriving DecidableEq, Repr

/-- gwu/session.go `Private`: a session is private iff its id is non-empty. -/
def sessPrivate (s : SessSt) : Bool := s.sid.length > 0

/-- gwu/session.go `WinByName`: map lookup. -/
def winByName (s : SessSt) (name : String) : Option Int :=
  match s.windows.find? (fun p => p.1 = name) with
  | some p => some p.2
  | none => none

/-- gwu/session.go `access`: stores the current time as last accessed. -/
def sessAccess (now : Int) (s : SessSt) : SessSt := { s with accessed := now }

/-- Seconds value of a duration of `d` nanoseconds (Go
`time.Duration.Seconds`; the float64 value and its `%f` rendering are
modelled by the exact rational). -/
def durSeconds (d : Int) : ℚ := (d : ℚ) / 1000000000

/-- Reserved session-check path (unnamed server file, `pathSessCheck`). -/
def pathSessCheck : String := "_sess_ch"

/-- Result of serving a request, as far as the claims need it. -/
inductive ServeResult where
  | notFound
  | sessCheckBody : ℚ → ServeResult
  | winList
  | served : String → String → ServeResult
  | servedPublic : String → String → ServeResult
  | sessionCreated : String → ServeResult
deriving DecidableEq

/-- Core of `serveHTTP` after path splitting: the session-check path
answers the remaining time (timeout minus time since last access) in
seconds without touching the session; the empty window name renders the
window list (also without `access`); a window of the session is served
after `sess.access()`; otherwise the public fallback (for private
sessions), the session-creator branch (for non-private sessions) and the
404 are reported without touching this session.  Returns the updated
session and the result. -/
def serveParts (now : Int) (parts : List String) (sess : SessSt)
    (pubWinNames : List String) (sessCreatorNames : List String) :
    SessSt × ServeResult :=
  match parts with
  | [] => (sess, ServeResult.notFound)
  | p0 :: rest =>
    if p0 = pathSessCheck then
      (sess, ServeResult.sessCheckBody (durSeconds (sess.timeout - (now - sess.accessed))))
    else if p0 = "" then
      (sess, ServeResult.winList)
    else
      let sub : String := match rest with | [] => "" | p1 :: _ => p1
      match winByName sess p0 with
      | some _ => (sessAccess now sess, ServeResult.served p0 sub)
      | none =>
        if sessPrivate sess && pubWinNames.contains p0 then
          (sess, ServeResult.servedPublic p0 sub)
        else if !(sessPrivate sess) && sessCreatorNames.contains p0 then
          (sess, ServeResult.sessionCreated p0)
        else (sess, ServeResult.notFound)

/-! ## Adding windows to a session (gwu/session.go: `AddWin`,
`WinByName`). -/

/-- Window as the session map stores it: its name and an abstract identity. -/
structure WinRec where
  name : String
  wid : Int
deriving DecidableEq, Repr

/-- Lookup in the session window map. -/
def winByNameM (windows : List (String × WinRec)) (name : String) : Option WinRec :=
  match windows.find? (fun p => p.1 = name) with
  | some p => some p.2
  | none => none

/-- gwu/session.go `AddWin`: an empty window name or an already-present
name is an error and the map is left untouched; otherwise the window is
stored under its name.  Returns the new map and the error message. -/
def addWin (windows : List (String × WinRec)) (w : WinRec) :
    List (String × WinRec) × Option String :=
  if w.name.length = 0 then
    (windows, some "Window name cannot be empty string!")
  else if (winByNameM windows w.name).isSome then
    (windows, some ("A window with the same name has already been added: " ++ w.name))
  else
    (windows ++ [(w.name, w)], none)

/-! ## Event-handler registration and sync-on event types (gwu/comp.go:
`compImpl.AddEHandler`, `compImpl.HandlersCount`,
`compImpl.AddSyncOnETypes`). -/

/-- Handler identity: the hidden `EMPTY_EHANDLER` or a user handler. -/
inductive HTag where
  | emptyHandler
  | user : Nat → HTag
deriving DecidableEq, Repr

/-- Handler table and sync-on set of a `compImpl`. -/
structure CompHandlers where
  handlers : List (Int × List HTag)
  syncOnETypes : List Int
deriving DecidableEq, Repr

/-- Handler list registered for an event type (a missing key of the Go map
reads as an empty slice). -/
def lookupH (hs : List (Int × List HTag)) (et : Int) : List HTag :=
  match hs.find? (fun p => p.1 = et) with
  | some p => p.2
  | none => []

/-- Map update storing a handler list under an event type. -/
def updateH (hs : List (Int × List HTag)) (et : Int) (v : List HTag) :
    List (Int × List HTag) :=
  (hs.filter (fun p => p.1 ≠ et)) ++ [(et, v)]

/-- gwu/comp.go `AddEHandler`: appends the handler to the list of each
event type. -/
def addEHandler (st : CompHandlers) (h : HTag) (etypes : List Int) : CompHandlers :=
  { st with handlers :=
      etypes.foldl (fun hs et => updateH hs et (lookupH hs et ++ [h])) st.handlers }

/-- gwu/comp.go `HandlersCount`. -/
def handlersCount (st : CompHandlers) (et : Int) : Nat :=
  (lookupH st.handlers et).length

/-- gwu/comp.go `AddSyncOnETypes`: for each event type not yet marked
sync-on, marks it and registers the hidden empty handler for it; already
marked types are skipped. -/
def addSyncOnETypes (st : CompHandlers) (etypes : List Int) : CompHandlers :=
  etypes.foldl
    (fun st et =>
      if st.syncOnETypes.contains et then st
      else addEHandler { st with syncOnETypes := st.syncOnETypes ++ [et] }
        HTag.emptyHandler [et])
    st

/-- A sequence of `AddSyncOnETypes` calls. -/
def applySyncCalls (st : CompHandlers) (calls : List (List Int)) : CompHandlers :=
  calls.foldl addSyncOnETypes st

/-! ## Tab panel removal (gwu/tabpanel.go: `tabPanelImpl.Remove`,
`tabPanelImpl.SetSelected`; gwu/panel.go: `CompAt`, `CompIdx`, `CellFmt`).

Tab and content components are represented by their ids; the two cell
formatter maps carry the style class lists that `SetSelected` edits.
`CellFmt` of a nil component or of a non-child returns nil, and calling
`Style()` on it (or `Equals` on a nil component inside `CompIdx`) is a
nil dereference: those paths yield `none`. -/

/-- gwu/panel.go `CompAt`: the element at the index, nil outside range. -/
def compAtI (l : List Int) (idx : Int) : Option Int :=
  if 0 ≤ idx ∧ idx < (l.length : Int) then l[idx.toNat]? else none

/-- Accumulator loop of `CompIdx` over ids. -/
def compIdxIAux (x : Int) : List Int → Int → Int
  | [], _ => -1
  | c :: cs, k => if c = x then k else compIdxIAux x cs (k + 1)

/-- gwu/panel.go `CompIdx` over ids: first index holding the id, else -1. -/
def compIdxI (l : List Int) (x : Int) : Int :=
  compIdxIAux x l 0

/-- Class list held by the cell formatter of a child (`CellFmt` lazily
creates an empty formatter). -/
def fmtClasses (fmts : List (Int × List String)) (cid : Int) : List String :=
  match fmts.find? (fun p => p.1 = cid) with
  | some p => p.2
  | none => []

/-- Stores the class list of a child's cell formatter. -/
def setFmtClasses (fmts : List (Int × List String)) (cid : Int) (cls : List String) :
    List (Int × List String) :=
  (fmts.filter (fun p => p.1 ≠ cid)) ++ [(cid, cls)]

/-- gwu/panel.go `Remove` on a panel of ids, also accepting the nil
component that `CompAt` may produce: `CompIdx(nil)` dereferences nil on a
non-empty child list (`none`); on an empty list it returns -1 and `Remove`
reports false. -/
def panelRemoveI (comps : List Int) (fmts : List (Int × List String))
    (c2 : Option Int) : Option (List Int × List (Int × List String) × Bool) :=
  match c2 with
  | none => if comps.isEmpty then some (comps, fmts, false) else none
  | some x =>
    let i := compIdxI comps x
    if i < 0 then some (comps, fmts, false)
    else some (comps.eraseIdx i.toNat, fmts.filter (fun p => p.1 ≠ x), true)

/-- State of a `tabPanelImpl`: content children and their cell formatters,
tab bar children and their cell formatters, the selected index and the
previously selected index. -/
structure TabPanelSt where
  contents : List Int
  contentFmts : List (Int × List String)
  tabs : List Int
  tabFmts : List (Int × List String)
  selected : Int
  prevSelected : Int
deriving DecidableEq, Repr

/-- gwu/tabpanel.go `SetSelected`: no-op when the index is not below the
component count; otherwise the current selection's tab cell formatter is
restyled (a nil dereference when the tab bar has no component at the
selected index), the previous selection is recorded, and the new
selection's tab cell formatter is restyled. -/
def setSelected (st : TabPanelSt) (idx : Int) : Option TabPanelSt :=
  if idx ≥ (st.contents.length : Int) then some st
  else
    let step1 : Option TabPanelSt :=
      if st.selected ≥ 0 then
        match compAtI st.tabs st.selected with
        | none => none
        | some t =>
          if compIdxI st.tabs t < 0 then none
          else
            let cls := addClass
              (removeClass (fmtClasses st.tabFmts t) "gwu-TabBar-Selected")
              "gwu-TabBar-NotSelected"
            some { st with tabFmts := setFmtClasses st.tabFmts t cls }
      else some st
    match step1 with
    | none => none
    | some st1 =>
      let st2 : TabPanelSt := { st1 with prevSelected := st1.selected, selected := idx }
      if st2.selected ≥ 0 then
        match compAtI st2.tabs st2.selected with
        | none => none
        | some t =>
          if compIdxI st2.tabs t < 0 then none
          else
            let cls := addClass
              (removeClass (fmtClasses st2.tabFmts t) "gwu-TabBar-NotSelected")
              "gwu-TabBar-Selected"
            some { st2 with tabFmts := setFmtClasses st2.tabFmts t cls }
      else some st2

/-- Selected-index update of gwu/tabpanel.go `Remove` (after the two panel
removals and the previous-selected adjustment): a removal below the
selection decrements it; removing the selected index stores the
previous-selected field, implicitly selects the tab now at the same index,
else the last remaining one, else none, and restores the stored field. -/
def tabPanelRemoveSel (st2 : TabPanelSt) (i : Int) : Option (TabPanelSt × Bool) :=
  if i < st2.selected then some ({ st2 with selected := st2.selected - 1 }, true)
  else if i = st2.selected then
    match (if i < (st2.contents.length : Int) then setSelected st2 i
           else if i > 0 then setSelected st2 (i - 1)
           else setSelected st2 (-1)) with
    | none => none
    | some st3 => some ({ st3 with prevSelected := st2.prevSelected }, true)
  else some (st2, true)

/-- Previous-selected adjustment of gwu/tabpanel.go `Remove`, followed by
the selected-index update. -/
def tabPanelRemoveCore (st1 : TabPanelSt) (i : Int) : Option (TabPanelSt × Bool) :=
  tabPanelRemoveSel
    (if st1.prevSelected ≥ 0 then
      if i < st1.prevSelected then { st1 with prevSelected := st1.prevSelected - 1 }
      else if i = st1.prevSelected then { st1 with prevSelected := -1 }
      else st1
     else st1) i

/-- Content branch of gwu/tabpanel.go `Remove` for the content component
`x` sitting at index `i`: the tab at the same index and the content are
removed from their panels, then the previous-selected and selected indices
are updated. -/
def tabPanelRemoveAt (st : TabPanelSt) (i : Int) (x : Int) :
    Option (TabPanelSt × Bool) :=
  match panelRemoveI st.tabs st.tabFmts (compAtI st.tabs i) with
  | none => none
  | some (tabs2, tabFmts2, _) =>
    match panelRemoveI st.contents st.contentFmts (some x) with
    | none => none
    | some (contents2, contentFmts2, _) =>
      tabPanelRemoveCore
        ({ st with
            tabs := tabs2
            tabFmts := tabFmts2
            contents := contents2
            contentFmts := contentFmts2 })
        i

/-- gwu/tabpanel.go `Remove`: a content component is removed through the
content branch; a tab component triggers removal of the content at the
same index (the Go recursion lands in the content branch, since the
component produced by `CompAt` is a member of the content list); anything
else reports false.  `CompAt` past the content list produces nil and
`Remove(nil)` dereferences nil on a non-empty list. -/
def tabPanelRemove (st : TabPanelSt) (x : Int) : Option (TabPanelSt × Bool) :=
  if compIdxI st.contents x ≥ 0 then tabPanelRemoveAt st (compIdxI st.contents x) x
  else if compIdxI st.tabs x < 0 then some (st, false)
  else
    match compAtI st.contents (compIdxI st.tabs x) with
    | none => if st.contents.isEmpty then some (st, false) else none
    | some y => tabPanelRemoveAt st (compIdxI st.contents y) y

/-- Adjustment of the previously-selected index performed by `Remove` when
index `i` is removed (spec side of the amended claim). -/
def prevAfterRemove (i prev : Int) : Int :=
  if prev ≥ 0 then
    if i < prev then prev - 1 else if i = prev then -1 else prev
  else prev

/-- Concrete tab panel used for the previous-selected counterexample:
three tabs, selected index 1, previously selected index 2. -/
def tabEx : TabPanelSt :=
  { contents := [101, 102, 103], contentFmts := [], tabs := [1, 2, 3],
    tabFmts := [], selected := 1, prevSelected := 2 }

/-- Concrete tab panel used for the last-tab-removal evaluation: two tabs,
the second one selected. -/
def tabEx2 : TabPanelSt :=
  { contents := [101, 102], contentFmts := [], tabs := [1, 2],
    tabFmts := [], selected := 1, prevSelected := 0 }

/-- Concrete ancestor environment used to witness the dirty-set claim:
component 2 is a child of component 1, component 3 a child of 2. -/
def ancEx : Int → List Int := fun c =>
  if c = 3 then [2, 1] else if c = 2 then [1] else []

/-- Invariant used for the handler-growth bound of claim C10: either the
event type is not yet sync-on and its handler list is still the original
one, or it is sync-on and the list grew by at most the one hidden handler. -/
def syncInv (t : Int) (base : List HTag) (s : CompHandlers) : Prop :=
  (t ∉ s.syncOnETypes ∧ lookupH s.handlers t = base)
  ∨ (t ∈ s.syncOnETypes ∧ (lookupH s.handlers t).length ≤ base.length + 1)

/-! ## Theorems -/

/-- Generic preservation of a predicate along a left fold; used for the
state-machine invariants below. -/
theorem foldl_preserves {α σ : Type} (P : σ → Prop) (f : σ → α → σ)
    (hf : ∀ s a, P s → P (f s a)) :
    ∀ (l : List α) (s : σ), P s → P (l.foldl f s) := by
  intro l
  induction l with
  | nil => intro s hs; exact hs
  | cons a t ih => intro s hs; exact ih (f s a) (hf s a hs)

theorem digitVal_digitChar {n : Nat} (h : n < 10) :
    digitVal (digitChar n) = some n := by
  interval_cases n <;> decide

theorem natDigits_all_digits : ∀ n : Nat, ∀ c ∈ natDigits n,
    48 ≤ c.toNat ∧ c.toNat ≤ 57 := by
  intro n
  induction n using Nat.strong_induction_on with
  | _ n ih =>
    intro c hc
    rw [natDigits] at hc
    by_cases h : n < 10
    · simp only [if_pos h, List.mem_singleton] at hc
      subst hc
      interval_cases n <;> decide
    · simp only [if_neg h, List.mem_append, List.mem_singleton] at hc
      rcases hc with hc | hc
      · exact ih (n / 10) (Nat.div_lt_self (by omega) (by omega)) c hc
      · subst hc
        have h10 : n % 10 < 10 := Nat.mod_lt _ (by omega)
        interval_cases h9 : n % 10 <;> simp_all <;> decide

theorem natDigits_ne_nil (n : Nat) : natDigits n ≠ [] := by
  rw [natDigits]
  by_cases h : n < 10 <;> simp [h]

theorem parseDigitsAux_append (l1 l2 : List Char) :
    ∀ acc, parseDigitsAux (l1 ++ l2) acc =
      match parseDigitsAux l1 acc with
      | some a => parseDigitsAux l2 a
      | none => none := by
  induction l1 with
  | nil => intro acc; simp [parseDigitsAux]
  | cons c cs ih =>
    intro acc
    simp only [List.cons_append, parseDigitsAux]
    cases digitVal c with
    | none => rfl
    | some d => simpa using ih (acc * 10 + d)

theorem parseDigitsAux_natDigits : ∀ n : Nat, parseDigitsAux (natDigits n) 0 = some n := by
  intro n
  induction n using Nat.strong_induction_on with
  | _ n ih =>
    rw [natDigits]
    by_cases h : n < 10
    · rw [if_pos h]
      simp [parseDigitsAux, digitVal_digitChar h]
    · rw [if_neg h, parseDigitsAux_append]
      rw [ih (n / 10) (Nat.div_lt_self (by omega) (by omega))]
      have h10 : n % 10 < 10 := Nat.mod_lt _ (by omega)
      simp [parseDigitsAux, digitVal_digitChar h10]
      omega

theorem parseDigits_natDigits (n : Nat) : parseDigits (natDigits n) = some n := by
  have hne := natDigits_ne_nil n
  rw [parseDigits, if_neg (by simpa [List.isEmpty_iff] using hne)]
  exact parseDigitsAux_natDigits n

/-- Round trip of id formatting and parsing: `AtoID(id.String()) = id` for
every value in the `int64` range. -/
theorem atoi_intToString (i : Int) (hmin : int64Min ≤ i) (hmax : i ≤ int64Max) :
    atoi (intToString i) = some i := by
  by_cases hneg : i < 0
  · have hd : (intToString i).data = '-' :: natDigits i.natAbs := by
      simp [intToString, if_pos hneg]
    rw [atoi.eq_def, hd]
    have hv : -((i.natAbs : Nat) : Int) = i := by omega
    simp [parseDigits_natDigits, hv, hmin, hmax, abs_of_neg hneg]
  · have hd : (intToString i).data = natDigits i.natAbs := by
      simp [intToString, if_neg hneg]
    rw [atoi.eq_def]
    cases hnd : natDigits i.natAbs with
    | nil => exact absurd hnd (natDigits_ne_nil _)
    | cons c cs =>
      have hcd : 48 ≤ c.toNat ∧ c.toNat ≤ 57 :=
        natDigits_all_digits _ c (by rw [hnd]; exact List.mem_cons_self c cs)
      have hc1 : (c == '-') = false := by
        rw [beq_eq_false_iff_ne]
        intro hc
        subst hc
        exact absurd hcd.1 (by decide)
      have hc2 : (c == '+') = false := by
        rw [beq_eq_false_iff_ne]
        intro hc
        subst hc
        exact absurd hcd.1 (by decide)
      rw [hd, hnd]
      have hv : ((i.natAbs : Nat) : Int) = i := by omega
      simp only [hc1, hc2, Bool.or_self, Bool.false_eq_true, if_false]
      rw [← hnd]
      simp [parseDigits_natDigits, hv, hmin, hmax]

theorem wrap64_eq_self {m : Int} (h1 : -(2 ^ 63) ≤ m) (h2 : m < 2 ^ 63) :
    wrap64 m = m := by
  rw [wrap64, Int.emod_eq_of_lt (by omega) (by omega)]
  omega

theorem wrap64_bounds (m : Int) : -(2 ^ 63) ≤ wrap64 m ∧ wrap64 m < 2 ^ 63 := by
  rw [wrap64]
  have h1 : 0 ≤ (m + 2 ^ 63) % 2 ^ 64 := Int.emod_nonneg _ (by norm_num)
  have h2 : (m + 2 ^ 63) % 2 ^ 64 < 2 ^ 64 := Int.emod_lt_of_pos _ (by norm_num)
  omega

theorem allocState_eq (n : Nat) (h : (n : Int) < 2 ^ 63) : allocState n = n := by
  induction n with
  | zero => rfl
  | succ m ih =>
    have hm : (m : Int) < 2 ^ 63 := by push_cast at h ⊢; omega
    rw [allocState, nextCompID]
    simp only [addInt64, ih hm]
    rw [wrap64_eq_self (by omega) (by push_cast at h ⊢; omega)]
    push_cast
    ring

theorem allocValue_eq (n : Nat) (h : (n : Int) + 1 < 2 ^ 63) :
    allocValue n = (n : Int) + 1 := by
  rw [allocValue, nextCompID]
  simp only [addInt64, allocState_eq n (by omega)]
  exact wrap64_eq_self (by omega) (by omega)

theorem allocValue_def (n : Nat) : allocValue n = wrap64 (allocState n + 1) := rfl

/-- Claim C8: the claim as stated quantifies over every finite sequence of
allocations, but the counter is a wrapping `int64`: allocation number
2^63 - 1 (0-based) wraps from 2^63 - 1 to the negative minimum, so it is
not strictly greater than its predecessor. -/
theorem C8_id_allocation_cex :
    allocValue (2 ^ 63 - 2) = 2 ^ 63 - 1
    ∧ allocValue (2 ^ 63 - 1) = -(2 ^ 63)
    ∧ ¬ allocValue (2 ^ 63 - 2) < allocValue (2 ^ 63 - 1) := by
  have h1 : allocValue (2 ^ 63 - 2) = ((2 ^ 63 - 2 : Nat) : Int) + 1 := by
    apply allocValue_eq
    push_cast
  have hs : allocState (2 ^ 63 - 1) = ((2 ^ 63 - 1 : Nat) : Int) := by
    apply allocState_eq
    push_cast
  have h2 : allocValue (2 ^ 63 - 1) = -(2 ^ 63) := by
    rw [allocValue_def, hs]
    have hc : ((2 ^ 63 - 1 : Nat) : Int) + 1 = 2 ^ 63 := by push_cast
    rw [hc, wrap64]
    norm_num
  refine ⟨?_, h2, ?_⟩
  · rw [h1]; push_cast
  · rw [h1, h2]
    push_cast
    exact not_false

/-- Claim C8 (amended): the first allocated value is 1; the first
2^63 - 1 allocations are strictly increasing (hence pairwise distinct);
beyond that the `int64` counter wraps; and parsing the decimal string of
an allocated id returns the id, for every allocation. -/
theorem C8_id_allocation :
    allocValue 0 = 1
    ∧ (∀ m n : Nat, m < n → (n : Int) < 2 ^ 63 - 1 → allocValue m < allocValue n)
    ∧ (∀ n : Nat, atoi (intToString (allocValue n)) = some (allocValue n)) := by
  refine ⟨?_, ?_, ?_⟩
  · have := allocValue_eq 0 (by norm_num)
    simpa using this
  · intro m n hmn hn
    rw [allocValue_eq m (by push_cast at hn ⊢; omega), allocValue_eq n (by omega)]
    omega
  · intro n
    have hb := wrap64_bounds (allocState n + 1)
    rw [allocValue_def]
    exact atoi_intToString _ (by rw [int64Min]; exact hb.1) (by rw [int64Max]; omega)

/-- Witness for the amended allocation claim at allocations 0 and 1. -/
theorem C8_id_allocation_witness :
    allocValue 0 = 1
    ∧ allocValue 0 < allocValue 1
    ∧ atoi (intToString (allocValue 1)) = some (allocValue 1) :=
  ⟨C8_id_allocation.1,
   C8_id_allocation.2.1 0 1 (by norm_num) (by norm_num),
   C8_id_allocation.2.2 1⟩

theorem removeClass_eq_erase : ∀ (l : List String) (x : String),
    removeClass l x = l.erase x := by
  intro l x
  induction l with
  | nil => rfl
  | cons c cs ih =>
    by_cases h : c = x
    · simp [removeClass, h, List.erase_cons]
    · simp [removeClass, h, List.erase_cons, ih]

/-- Claim C7: the first conjunct of the claim fails as stated, because
`RemoveClass` deletes the first occurrence: starting from the class list
["x", "b"], `AddClass("x")` then `RemoveClass("x")` yields ["b", "x"],
not the original list. -/
theorem C7_style_class_cex :
    removeClass (addClass ["x", "b"] "x") "x" = ["b", "x"]
    ∧ ["b", "x"] ≠ ["x", "b"] := by
  constructor
  · rfl
  · decide

/-- Claim C7 (amended): `AddClass(x)` then `RemoveClass(x)` restores the
class list exactly when `x` was not already present, and in general
restores it up to permutation (same multiset); `SetClass(x)` with
non-empty `x` leaves exactly [x]; `SetClass("")` leaves []. -/
theorem C7_style_class (l : List String) (x : String) :
    (x ∉ l → removeClass (addClass l x) x = l)
    ∧ (removeClass (addClass l x) x).Perm l
    ∧ (x ≠ "" → setClass l x = [x])
    ∧ setClass l "" = [] := by
  refine ⟨?_, ?_, ?_, ?_⟩
  · intro hx
    rw [addClass, removeClass_eq_erase, List.erase_append_right _ hx]
    simp
  · rw [addClass, removeClass_eq_erase]
    by_cases hx : x ∈ l
    · rw [List.erase_append_left _ hx]
      exact (List.perm_append_singleton _ _).trans (List.perm_cons_erase hx).symm
    · rw [List.erase_append_right _ hx]
      simp
  · intro hx
    have hd : x.data ≠ [] := by
      intro hdn
      apply hx
      apply String.ext
      simpa using hdn
    have hlen : 0 < x.length := by
      have he : x.length = x.data.length := rfl
      rw [he]
      exact List.length_pos.mpr hd
    simp [setClass, hlen]
  · rfl

/-- Witness for the amended style-class claim at a concrete list. -/
theorem C7_style_class_witness :
    removeClass (addClass ["a"] "b") "b" = ["a"]
    ∧ setClass ["a"] "c" = ["c"] :=
  ⟨(C7_style_class ["a"] "b").1 (by decide),
   (C7_style_class ["a"] "c").2.2.1 (by decide)⟩

theorem isDirty_false_iff (anc : Int → List Int) (s : List Int) (c : Int) :
    isDirty anc s c = false ↔ (c ∉ s ∧ ∀ b ∈ s, descendantOf anc c b = false) := by
  simp [isDirty, List.elem_iff]

theorem markDirtyComp_preserves (anc : Int → List Int) (s : List Int) (c : Int)
    (h : minimalDirty anc s ∧ s.Nodup) :
    minimalDirty anc (markDirtyComp anc s c) ∧ (markDirtyComp anc s c).Nodup := by
  obtain ⟨hmin, hnd⟩ := h
  by_cases hd : isDirty anc s c = true
  · rw [markDirtyComp, if_pos hd]
    exact ⟨hmin, hnd⟩
  · rw [Bool.not_eq_true] at hd
    rw [markDirtyComp, if_neg (by simp [hd])]
    obtain ⟨hcs, hdesc⟩ := (isDirty_false_iff anc s c).mp hd
    constructor
    · intro a ha b hb hab
      rw [List.mem_append, List.mem_singleton] at ha hb
      rcases ha with ha | ha <;> rcases hb with hb | hb
      · exact hmin a (List.mem_of_mem_filter ha) b (List.mem_of_mem_filter hb) hab
      · subst hb
        have := (List.mem_filter.mp ha).2
        simpa using this
      · subst ha
        exact hdesc b (List.mem_of_mem_filter hb)
      · subst ha
        subst hb
        exact absurd rfl hab
    · rw [List.nodup_append]
      refine ⟨hnd.filter _, List.nodup_singleton c, ?_⟩
      intro a ha hb
      rw [List.mem_singleton] at hb
      subst hb
      exact hcs (List.mem_of_mem_filter ha)

theorem runMarkDirty_invariant (anc : Int → List Int) (calls : List (List Int)) :
    minimalDirty anc (runMarkDirty anc calls) ∧ (runMarkDirty anc calls).Nodup := by
  rw [runMarkDirty]
  apply foldl_preserves (fun s => minimalDirty anc s ∧ s.Nodup)
  · intro s call hs
    rw [markDirty]
    apply foldl_preserves (fun s => minimalDirty anc s ∧ s.Nodup)
    · intro s c hsc
      exact markDirtyComp_preserves anc s c hsc
    · exact hs
  · exact ⟨by intro a ha; simp at ha, List.nodup_nil⟩

/-- Claim C1: during one dispatch (the tree fixed, ancestor chains given by
`anc`), after any finite sequence of `MarkDirty` calls starting from the
empty dirty set, no member of the dirty set is a descendant of another
member; marking a component that is already covered (as a member or by an
ancestor in the set) leaves the set unchanged; and marking a non-dirty
component first removes the members descending from it, then appends it. -/
theorem C1_dirty_set_minimal (anc : Int → List Int) (calls : List (List Int)) :
    minimalDirty anc (runMarkDirty anc calls)
    ∧ (∀ s c b, b ∈ s → descendantOf anc c b = true → markDirtyComp anc s c = s)
    ∧ (∀ s c, isDirty anc s c = false →
        markDirtyComp anc s c = (s.filter (fun a => !(descendantOf anc a c))) ++ [c]) := by
  refine ⟨(runMarkDirty_invariant anc calls).1, ?_, ?_⟩
  · intro s c b hb hdesc
    have hd : isDirty anc s c = true := by
      rw [isDirty, Bool.or_eq_true]
      right
      rw [List.any_eq_true]
      exact ⟨b, hb, hdesc⟩
    rw [markDirtyComp, if_pos hd]
  · intro s c hd
    rw [markDirtyComp, if_neg (by simp [hd])]

/-- Witness for the dirty-set claim on the concrete environment `ancEx`
(2 below 1): marking the child 2 when its ancestor 1 is dirty is a no-op,
and marking the ancestor 1 when the descendant 2 is dirty replaces it. -/
theorem C1_dirty_set_minimal_witness :
    markDirtyComp ancEx [1] 2 = [1]
    ∧ markDirtyComp ancEx [2] 1 =
        ([2].filter (fun a => !(descendantOf ancEx a 1))) ++ [1] :=
  ⟨(C1_dirty_set_minimal ancEx []).2.1 [1] 2 1 (by decide) (by decide),
   (C1_dirty_set_minimal ancEx []).2.2 [2] 1 (by decide)⟩

theorem applyOps_no_reload (anc : Int → List Int) :
    ∀ (ops : List EOp) (s : SharedEvtData), lastReload ops = none →
      (applyOps anc ops s).reload = s.reload
      ∧ (applyOps anc ops s).reloadWin = s.reloadWin := by
  intro ops
  induction ops with
  | nil => intro s _; exact ⟨rfl, rfl⟩
  | cons op rest ih =>
    intro s hlr
    cases op with
    | markDirtyOp comps => exact ih _ (by simpa [lastReload] using hlr)
    | reloadWinOp n => simp [lastReload] at hlr
    | setFocusedCompOp c => exact ih _ (by simpa [lastReload] using hlr)

theorem applyOps_last_reload (anc : Int → List Int) :
    ∀ (ops : List EOp) (s : SharedEvtData) (name : String),
      lastReload ops = some name →
      (applyOps anc ops s).reload = true
      ∧ (applyOps anc ops s).reloadWin = name := by
  intro ops
  induction ops with
  | nil => intro s name h; simp [lastReload] at h
  | cons op rest ih =>
    intro s name hlr
    cases op with
    | markDirtyOp comps => exact ih _ name (by simpa [lastReload] using hlr)
    | setFocusedCompOp c => exact ih _ name (by simpa [lastReload] using hlr)
    | reloadWinOp n =>
      rw [lastReload] at hlr
      cases hrest : lastReload rest with
      | some m =>
        rw [hrest] at hlr
        simp at hlr
        subst hlr
        exact ih _ m hrest
      | none =>
        rw [hrest] at hlr
        simp at hlr
        subst hlr
        have := applyOps_no_reload anc rest
          { s with reload := true, reloadWin := n } hrest
        rw [applyOps, List.foldl_cons]
        exact ⟨this.1, this.2⟩

theorem eventResponseBody_characterization (s : SharedEvtData) :
    eventResponseBody s =
      if s.reload then "1," ++ s.reloadWin else eventResponseSpec s := by
  by_cases hr : s.reload
  · rw [eventResponseBody, if_pos hr, if_pos hr]
  · rw [eventResponseBody, if_neg hr, if_neg hr]
    cases hd : s.dirtyComps with
    | nil =>
      cases hf : s.focusedComp with
      | none => simp [eventResponseSpec, hd, hf]
      | some f => simp [eventResponseSpec, hd, hf]
    | cons d ds =>
      cases hf : s.focusedComp with
      | none => simp [eventResponseSpec, hd, hf]
      | some f => simp [eventResponseSpec, hd, hf]

/-- Claim C2: for any sequence of handler calls during one dispatch, if
some `ReloadWin` call was made, the encoded response is exactly the reload
action with the last requested name, regardless of the `MarkDirty` and
`SetFocusedComp` calls; otherwise the response is the dirty action first
(when the dirty set is non-empty), the focus action second (when a focus
target is set), and the single no-op action when neither is present. -/
theorem C2_reload_dominance (anc : Int → List Int) (ops : List EOp) :
    eventResponseBody (applyOps anc ops newSharedEvtData) =
      match lastReload ops with
      | some name => "1," ++ name
      | none => eventResponseSpec (applyOps anc ops newSharedEvtData) := by
  cases hlr : lastReload ops with
  | some name =>
    have h := applyOps_last_reload anc ops newSharedEvtData name hlr
    rw [eventResponseBody_characterization, if_pos h.1, h.2]
  | none =>
    have h := applyOps_no_reload anc ops newSharedEvtData hlr
    have hfalse : (applyOps anc ops newSharedEvtData).reload = false := by
      rw [h.1]; rfl
    rw [eventResponseBody_characterization, if_neg (by simp [hfalse])]

theorem assoc_find_filter_ne {κ β : Type} [DecidableEq κ] (ps : List (κ × β)) (i : κ) :
    (ps.filter (fun p => p.1 ≠ i)).find? (fun p => p.1 = i) = none := by
  rw [List.find?_eq_none]
  intro p hp
  have := (List.mem_filter.mp hp).2
  simpa using this

theorem assoc_find_append_none {κ β : Type} (l1 l2 : List (κ × β))
    (p : κ × β → Bool) (h : l1.find? p = none) :
    (l1 ++ l2).find? p = l2.find? p := by
  induction l1 with
  | nil => rfl
  | cons a t ih =>
    rw [List.find?_eq_none] at h
    have hp : p a = false := by
      have := h a (List.mem_cons_self a t)
      simpa using this
    rw [List.cons_append]
    simp only [List.find?, hp]
    apply ih
    rw [List.find?_eq_none]
    intro x hx
    exact h x (List.mem_cons_of_mem a hx)

/-- Claim C9: `AddWin` errs exactly when the window name is empty or a
window with that name is already registered; on error the window map is
untouched (so `WinByName` answers as before); on success `WinByName` of
the new window's name returns it. -/
theorem C9_addwin (windows : List (String × WinRec)) (w : WinRec) :
    ((addWin windows w).2.isSome ↔ (w.name = "" ∨ (winByNameM windows w.name).isSome))
    ∧ ((addWin windows w).2.isSome → (addWin windows w).1 = windows)
    ∧ ((addWin windows w).2 = none → winByNameM (addWin windows w).1 w.name = some w) := by
  have hname : w.name.length = 0 ↔ w.name = "" := by
    constructor
    · intro h
      apply String.ext
      have he : w.name.length = w.name.data.length := rfl
      rw [he] at h
      simpa using List.length_eq_zero.mp h
    · intro h; rw [h]; rfl
  by_cases h0 : w.name.length = 0
  · refine ⟨?_, ?_, ?_⟩
    · rw [addWin, if_pos h0]
      simp [hname.mp h0]
    · intro _
      rw [addWin, if_pos h0]
    · intro hcontra
      rw [addWin, if_pos h0] at hcontra
      simp at hcontra
  · by_cases h1 : (winByNameM windows w.name).isSome
    · refine ⟨?_, ?_, ?_⟩
      · rw [addWin, if_neg h0, if_pos h1]
        simp [h1]
      · intro _
        rw [addWin, if_neg h0, if_pos h1]
      · intro hcontra
        rw [addWin, if_neg h0, if_pos h1] at hcontra
        simp at hcontra
    · refine ⟨?_, ?_, ?_⟩
      · rw [addWin, if_neg h0, if_neg h1]
        simp [hname, h1]
        intro hc
        exact h0 (hname.mpr hc)
      · intro hcontra
        rw [addWin, if_neg h0, if_neg h1] at hcontra
        simp at hcontra
      · intro _
        rw [addWin, if_neg h0, if_neg h1]
        rw [winByNameM] at h1 ⊢
        cases hf : windows.find? (fun p => p.1 = w.name) with
        | some p => rw [hf] at h1; simp at h1
        | none =>
          rw [assoc_find_append_none _ _ _ hf]
          simp [List.find?_cons]

/-- Witness for the `AddWin` claim: duplicate addition fails and leaves the
map unchanged, fresh addition succeeds and is found. -/
theorem C9_addwin_witness :
    (addWin [("w", WinRec.mk "w" 1)] (WinRec.mk "w" 2)).1 = [("w", WinRec.mk "w" 1)]
    ∧ winByNameM (addWin [] (WinRec.mk "w" 1)).1 "w" = some (WinRec.mk "w" 1) :=
  ⟨(C9_addwin [("w", WinRec.mk "w" 1)] (WinRec.mk "w" 2)).2.1 (by decide),
   (C9_addwin [] (WinRec.mk "w" 1)).2.2 (by decide)⟩

theorem lookupH_updateH_self (hs : List (Int × List HTag)) (et : Int) (v : List HTag) :
    lookupH (updateH hs et v) et = v := by
  rw [lookupH, updateH, assoc_find_append_none _ _ _ (assoc_find_filter_ne hs et)]
  simp [List.find?_cons]

theorem find?_cons_eq {α : Type} (p : α → Bool) (a : α) (t : List α) :
    (a :: t).find? p = if p a = true then some a else t.find? p := by
  cases hp : p a <;> simp [List.find?, hp]

theorem find_filter_append_other {β : Type} (l : List (Int × β)) (et et2 : Int) (v : β)
    (h : et2 ≠ et) :
    ((l.filter (fun p => p.1 ≠ et)) ++ [(et, v)]).find? (fun p => p.1 = et2)
      = l.find? (fun p => p.1 = et2) := by
  have h2 : ¬(et = et2) := fun q => h q.symm
  have hbase : ([((et : Int), v)].find? (fun p => (p.1 = et2 : Bool))) = none := by
    simp [List.find?, h2]
  induction l with
  | nil => simpa using hbase
  | cons a t ih =>
    rw [List.filter_cons]
    by_cases ha : a.1 = et
    · rw [if_neg (by simp [ha]), ih, find?_cons_eq]
      have haj : ¬(decide (a.1 = et2) = true) := by
        rw [ha]
        simpa using h2
      rw [if_neg haj]
    · rw [if_pos (by simp [ha]), List.cons_append, find?_cons_eq, find?_cons_eq, ih]

theorem lookupH_updateH_other (hs : List (Int × List HTag)) (et et2 : Int) (v : List HTag)
    (h : et2 ≠ et) : lookupH (updateH hs et v) et2 = lookupH hs et2 := by
  rw [lookupH, updateH, lookupH, find_filter_append_other hs et et2 v h]

theorem syncOn_mem_addSyncOnETypes (t : Int) :
    ∀ (ts : List Int) (st : CompHandlers), (t ∈ st.syncOnETypes ∨ t ∈ ts) →
      t ∈ (addSyncOnETypes st ts).syncOnETypes := by
  intro ts
  induction ts with
  | nil =>
    intro st h
    rcases h with h | h
    · exact h
    · simp at h
  | cons et rest ih =>
    intro st h
    rw [addSyncOnETypes, List.foldl_cons]
    by_cases hc : st.syncOnETypes.contains et
    · rw [if_pos hc]
      apply ih
      rcases h with h | h
      · exact Or.inl h
      · rcases List.mem_cons.mp h with h | h
        · subst h
          exact Or.inl (List.elem_iff.mp hc)
        · exact Or.inr h
    · rw [if_neg hc]
      apply ih
      rcases h with h | h
      · left
        simp [addEHandler]
        exact Or.inl h
      · rcases List.mem_cons.mp h with h | h
        · subst h
          left
          simp [addEHandler]
        · exact Or.inr h

theorem addSyncOnETypes_skip (st : CompHandlers) (t : Int)
    (h : t ∈ st.syncOnETypes) : addSyncOnETypes st [t] = st := by
  rw [addSyncOnETypes, List.foldl_cons, if_pos (List.elem_iff.mpr h), List.foldl_nil]

theorem syncInvariant_step (t : Int) (base : List HTag) (s : CompHandlers) (et : Int)
    (h : syncInv t base s) :
    syncInv t base (if s.syncOnETypes.contains et then s
      else addEHandler { s with syncOnETypes := s.syncOnETypes ++ [et] }
        HTag.emptyHandler [et]) := by
  by_cases hc : s.syncOnETypes.contains et
  · rw [if_pos hc]
    exact h
  · rw [if_neg hc]
    rw [syncInv] at h ⊢
    have hnew : (addEHandler { s with syncOnETypes := s.syncOnETypes ++ [et] }
        HTag.emptyHandler [et]).syncOnETypes = s.syncOnETypes ++ [et] := rfl
    have hhand : (addEHandler { s with syncOnETypes := s.syncOnETypes ++ [et] }
        HTag.emptyHandler [et]).handlers
          = updateH s.handlers et (lookupH s.handlers et ++ [HTag.emptyHandler]) := rfl
    rw [hnew, hhand]
    by_cases het : et = t
    · subst het
      have hts : et ∉ s.syncOnETypes := fun hmem => hc (List.elem_iff.mpr hmem)
      rcases h with ⟨_, hbase⟩ | ⟨hmem, _⟩
      · right
        refine ⟨List.mem_append_right _ (by simp), ?_⟩
        rw [lookupH_updateH_self, hbase]
        simp
      · exact absurd hmem hts
    · have hne : t ≠ et := fun q => het q.symm
      have hlk : lookupH (updateH s.handlers et
            (lookupH s.handlers et ++ [HTag.emptyHandler])) t
          = lookupH s.handlers t := lookupH_updateH_other _ _ _ _ hne
      have hmemIff : t ∈ s.syncOnETypes ++ [et] ↔ t ∈ s.syncOnETypes := by
        rw [List.mem_append, List.mem_singleton]
        constructor
        · intro hq
          rcases hq with hq | hq
          · exact hq
          · exact absurd hq hne
        · exact Or.inl
      rw [hlk]
      rcases h with ⟨hmem, hbase⟩ | ⟨hmem, hlen⟩
      · left
        exact ⟨fun hq => hmem (hmemIff.mp hq), hbase⟩
      · right
        exact ⟨hmemIff.mpr hmem, hlen⟩

theorem syncInvariant_preserved (t : Int) (base : List HTag)
    (calls : List (List Int)) (s : CompHandlers)
    (h : syncInv t base s) : syncInv t base (applySyncCalls s calls) := by
  rw [applySyncCalls]
  apply foldl_preserves (syncInv t base)
  · intro s2 call hs2
    rw [addSyncOnETypes]
    apply foldl_preserves (syncInv t base)
    · intro s3 et hs3
      exact syncInvariant_step t base s3 et hs3
    · exact hs2
  · exact h

/-- Claim C10: marking an event type sync-on registers the hidden empty
handler only the first time; repeating `AddSyncOnETypes` with a type that
is already sync-on leaves the component state unchanged; and over any
sequence of `AddSyncOnETypes` calls, `HandlersCount` of an event type
grows by at most one. -/
theorem C10_sync_on_idempotent (st : CompHandlers) (ts : List Int) (t : Int)
    (calls : List (List Int)) :
    (t ∈ ts → addSyncOnETypes (addSyncOnETypes st ts) [t] = addSyncOnETypes st ts)
    ∧ handlersCount (applySyncCalls st calls) t ≤ handlersCount st t + 1
    ∧ (t ∉ st.syncOnETypes →
        lookupH (addSyncOnETypes st [t]).handlers t
          = lookupH st.handlers t ++ [HTag.emptyHandler]) := by
  refine ⟨?_, ?_, ?_⟩
  · intro hmem
    exact addSyncOnETypes_skip _ t
      (syncOn_mem_addSyncOnETypes t ts st (Or.inr hmem))
  · have h := syncInvariant_preserved t (lookupH st.handlers t) calls st
      (by rw [syncInv]
          by_cases hmem : t ∈ st.syncOnETypes
          · right
            exact ⟨hmem, by omega⟩
          · left
            exact ⟨hmem, rfl⟩)
    rw [handlersCount, handlersCount]
    rw [syncInv] at h
    rcases h with ⟨_, hbase⟩ | ⟨_, hlen⟩
    · rw [hbase]; omega
    · exact hlen
  · intro hmem
    rw [addSyncOnETypes, List.foldl_cons,
      if_neg (fun hq => hmem (List.elem_iff.mp hq)), List.foldl_nil]
    simp only [addEHandler, List.foldl_cons, List.foldl_nil]
    exact lookupH_updateH_self _ _ _

/-- Witness for the sync-on claim on a concrete component state. -/
theorem C10_sync_on_idempotent_witness :
    addSyncOnETypes (addSyncOnETypes (CompHandlers.mk [] []) [0]) [0]
      = addSyncOnETypes (CompHandlers.mk [] []) [0]
    ∧ lookupH (addSyncOnETypes (CompHandlers.mk [] []) [0]).handlers 0
      = lookupH (CompHandlers.mk [] []).handlers 0 ++ [HTag.emptyHandler] :=
  ⟨(C10_sync_on_idempotent (CompHandlers.mk [] []) [0] 0 []).1 (by decide),
   (C10_sync_on_idempotent (CompHandlers.mk [] []) [0] 0 []).2.2 (by decide)⟩

/-- Claim C5: the claim states a 400 response exactly for unparseable cid,
unknown component, or unknown event type; but `handleEvent` only rejects a
negative parsed event type.  Event type 16 is outside every category
(`Category` answers `ECAT_UNKNOWN`, -1) yet the request is dispatched, not
rejected. -/
theorem C5_protocol_cex :
    eventTypeCategory 16 = -1
    ∧ handleEventCheck winEx (EventRequest.mk "" "5" "16")
        = EventOutcome.dispatched 5 16
    ∧ isBadRequest (handleEventCheck winEx (EventRequest.mk "" "5" "16")) = false := by
  have hc : atoi "5" = some 5 := by decide
  have hw : panelById winEx 5 = some (GComp.leaf 5) := by
    simp [panelById, winEx, byIdList, GComp.id]
  have he : parseIntParam "16" = 16 := by decide
  have hmain : handleEventCheck winEx (EventRequest.mk "" "5" "16")
      = EventOutcome.dispatched 5 16 := by
    rw [handleEventCheck.eq_def]
    simp only [hc, hw, he]
    rw [if_neg (by omega)]
  refine ⟨by decide, hmain, by rw [hmain]; rfl⟩

/-- Claim C5 (amended): `handleEvent` answers HTTP 400 (with a plain-text
explanation, no handler dispatched) iff the cid field does not parse, or
no component with that id is in the window, or the event type field parses
to a negative value (missing or unparseable fields decode to -1); any
non-negative event type code is dispatched, known category or not. -/
theorem C5_protocol (win : PanelSt) (r : EventRequest) :
    (isBadRequest (handleEventCheck win r) = true ↔
      (atoi r.cid = none
        ∨ (∃ cid, atoi r.cid = some cid ∧ panelById win cid = none)
        ∨ parseIntParam r.et < 0))
    ∧ (∀ cid c, atoi r.cid = some cid → panelById win cid = some c →
        0 ≤ parseIntParam r.et →
        handleEventCheck win r = EventOutcome.dispatched cid (parseIntParam r.et)) := by
  constructor
  · rw [handleEventCheck.eq_def]
    cases hc : atoi r.cid with
    | none => simp [isBadRequest, hc]
    | some cid =>
      cases hp : panelById win cid with
      | none => simp [isBadRequest, hc, hp]
      | some c =>
        by_cases he : parseIntParam r.et < 0
        · simp [isBadRequest, hc, hp, he]
        · simp [isBadRequest, hc, hp, he]
  · intro cid c hc hp he
    rw [handleEventCheck.eq_def]
    simp only [hc, hp]
    rw [if_neg (by omega)]

/-- Witness for the amended protocol claim: a well-formed request on the
concrete window is dispatched. -/
theorem C5_protocol_witness :
    handleEventCheck winEx (EventRequest.mk "" "5" "0")
      = EventOutcome.dispatched 5 (parseIntParam "0") :=
  (C5_protocol winEx (EventRequest.mk "" "5" "0")).2 5 (GComp.leaf 5)
    (by decide) (by simp [panelById, winEx, byIdList, GComp.id]) (by decide)

/-- Claim C6: a GET of the session-check path returns the remaining time
until timeout — the timeout minus (now minus last-accessed) — as a decimal
number of seconds and leaves every session field unchanged, while any
request that serves a window of the session first updates its
last-accessed time to now. -/
theorem C6_session_check (now : Int) (sess : SessSt)
    (pub creators : List String) :
    (∀ rest, serveParts now (pathSessCheck :: rest) sess pub creators
      = (sess, ServeResult.sessCheckBody
          (durSeconds (sess.timeout - (now - sess.accessed)))))
    ∧ (∀ name rest, name ≠ pathSessCheck → name ≠ "" →
        (winByName sess name).isSome →
        (serveParts now (name :: rest) sess pub creators).1
          = sessAccess now sess) := by
  constructor
  · intro rest
    rw [serveParts.eq_def]
    simp
  · intro name rest h1 h2 h3
    rw [serveParts.eq_def]
    simp only
    rw [if_neg h1, if_neg h2]
    cases hw : winByName sess name with
    | none => rw [hw] at h3; simp at h3
    | some w => rfl

/-- Witness for the session-check claim on a concrete session: the check
leaves the session untouched and reports (timeout - (now - accessed))
seconds; a window request updates the accessed time. -/
theorem C6_session_check_witness :
    serveParts 100 [pathSessCheck] (SessSt.mk "abc" false 0 40 [("w", 7)] [] 1000) [] []
      = (SessSt.mk "abc" false 0 40 [("w", 7)] [] 1000,
         ServeResult.sessCheckBody (durSeconds (1000 - (100 - 40))))
    ∧ (serveParts 100 ["w"] (SessSt.mk "abc" false 0 40 [("w", 7)] [] 1000) [] []).1
      = sessAccess 100 (SessSt.mk "abc" false 0 40 [("w", 7)] [] 1000) :=
  ⟨(C6_session_check 100 (SessSt.mk "abc" false 0 40 [("w", 7)] [] 1000) [] []).1 [],
   (C6_session_check 100 (SessSt.mk "abc" false 0 40 [("w", 7)] [] 1000) [] []).2
     "w" [] (by decide) (by decide) (by decide)⟩

theorem mem_compIdsList : ∀ (l : List GComp) (c : GComp), c ∈ l → c.id ∈ compIdsList l := by
  intro l
  induction l with
  | nil => intro c hc; simp at hc
  | cons a t ih =>
    intro c hc
    rcases List.mem_cons.mp hc with hc2 | hc2
    · subst hc2
      cases c with
      | leaf i => simp [compIdsList, GComp.id]
      | cont i sub => simp [compIdsList, GComp.id]
    · cases a with
      | leaf i => simp [compIdsList]; right; exact ih c hc2
      | cont i sub =>
        simp [compIdsList]
        right
        right
        exact ih c hc2

theorem compIdsList_append : ∀ (l1 l2 : List GComp),
    compIdsList (l1 ++ l2) = compIdsList l1 ++ compIdsList l2 := by
  intro l1
  induction l1 with
  | nil => intro l2; simp [compIdsList]
  | cons a t ih =>
    intro l2
    cases a with
    | leaf i => simp [compIdsList, ih]
    | cont i sub => simp [compIdsList, ih]

theorem byIdList_eq_none (i : Int) : ∀ (l : List GComp),
    i ∉ compIdsList l → byIdList i l = none := by
  intro l
  induction l using compIdsList.induct with
  | case1 => intro h; simp [byIdList]
  | case2 cid cs ih =>
    intro h
    rw [compIdsList] at h
    simp only [List.mem_cons] at h
    push_neg at h
    rw [byIdList, if_neg (by simpa [GComp.id] using Ne.symm h.1)]
    exact ih h.2
  | case3 cid sub cs ihsub ihcs =>
    intro h
    rw [compIdsList] at h
    simp only [List.mem_cons, List.mem_append] at h
    push_neg at h
    rw [byIdList, if_neg (by simpa [GComp.id] using Ne.symm h.1)]
    rw [ihsub h.2.1]
    exact ihcs h.2.2

theorem byIdList_append_none (i : Int) (l2 : List GComp) : ∀ (l1 : List GComp),
    byIdList i l1 = none → byIdList i (l1 ++ l2) = byIdList i l2 := by
  intro l1
  induction l1 with
  | nil => intro h; rfl
  | cons c cs ih =>
    intro h
    cases c with
    | leaf cid =>
      rw [byIdList] at h
      rw [List.cons_append, byIdList]
      by_cases hc : GComp.id (GComp.leaf cid) = i
      · rw [if_pos hc] at h; simp at h
      · rw [if_neg hc] at h
        rw [if_neg hc]
        exact ih h
    | cont cid sub =>
      rw [byIdList] at h
      rw [List.cons_append, byIdList]
      by_cases hc : GComp.id (GComp.cont cid sub) = i
      · rw [if_pos hc] at h; simp at h
      · rw [if_neg hc] at h
        rw [if_neg hc]
        revert h
        cases hsub : byIdList i sub with
        | some r => intro h; simp at h
        | none => intro h; exact ih h

theorem byIdList_singleton_self (c : GComp) : byIdList (GComp.id c) [c] = some c := by
  cases c with
  | leaf i => rw [byIdList, if_pos rfl]
  | cont i sub => rw [byIdList, if_pos rfl]

theorem compIdxAux_append (cid : Int) (post : List GComp) (c : GComp)
    (hc : GComp.id c = cid) : ∀ (pre : List GComp) (k : Int),
    (∀ h ∈ pre, GComp.id h ≠ cid) →
    compIdxAux cid (pre ++ c :: post) k = k + (pre.length : Int) := by
  intro pre
  induction pre with
  | nil =>
    intro k _
    rw [List.nil_append, compIdxAux, if_pos hc]
    simp
  | cons a t ih =>
    intro k hpre
    rw [List.cons_append, compIdxAux,
      if_neg (hpre a (List.mem_cons_self a t))]
    rw [ih (k + 1) (fun x hx => hpre x (List.mem_cons_of_mem a hx))]
    simp only [List.length_cons]
    push_cast
    ring

theorem eraseIdx_append_len {α : Type} (post : List α) (c : α) :
    ∀ (pre : List α), (pre ++ c :: post).eraseIdx pre.length = pre ++ post := by
  intro pre
  induction pre with
  | nil => rfl
  | cons a t ih => simp [List.eraseIdx, ih]

theorem lookupPar_setPar (ps : List (Int × Int)) (i par : Int) :
    lookupPar (setPar ps i par) i = some par := by
  rw [lookupPar, setPar,
    assoc_find_append_none _ _ _ (assoc_find_filter_ne ps i)]
  simp [List.find?]

theorem lookupPar_erasePar (ps : List (Int × Int)) (i : Int) :
    lookupPar (erasePar ps i) i = none := by
  rw [lookupPar, erasePar, assoc_find_filter_ne ps i]

/-- Claim C4: in a panel whose component ids are consistent (the added
component's id differs from the panel's and from every id already inside),
after `Add(c)` the component's parent is the panel and `ById(c.Id())`
returns it; after a successful `Remove(c)` (the component sitting at some
position of the child list, its id appearing nowhere else) the parent is
nil, `ById(c.Id())` returns nil, and the cell-formatter record keyed by
the component is deleted. -/
theorem C4_parent_consistency (st : PanelSt) (c : GComp) :
    (lookupPar st.parents (GComp.id c) = none → GComp.id c ≠ st.pid →
      GComp.id c ∉ compIdsList st.comps →
      lookupPar (panelAdd st c).parents (GComp.id c) = some st.pid
      ∧ panelById (panelAdd st c) (GComp.id c) = some c)
    ∧ (∀ pre post, st.comps = pre ++ c :: post → GComp.id c ≠ st.pid →
        GComp.id c ∉ compIdsList pre → GComp.id c ∉ compIdsList post →
        (panelRemove st c).2 = true
        ∧ lookupPar (panelRemove st c).1.parents (GComp.id c) = none
        ∧ panelById (panelRemove st c).1 (GComp.id c) = none
        ∧ GComp.id c ∉ (panelRemove st c).1.cellFmts) := by
  constructor
  · intro hpar hpid hfresh
    constructor
    · rw [panelAdd]
      exact lookupPar_setPar st.parents (GComp.id c) st.pid
    · rw [panelById, panelAdd]
      simp only
      rw [if_neg (Ne.symm hpid)]
      rw [byIdList_append_none _ _ _ (byIdList_eq_none _ _ hfresh)]
      exact byIdList_singleton_self c
  · intro pre post hcomps hpid hpre hpost
    have hprene : ∀ h ∈ pre, GComp.id h ≠ GComp.id c :=
      fun x hx he => hpre (he ▸ mem_compIdsList pre x hx)
    have hidx : compIdx st.comps (GComp.id c) = (pre.length : Int) := by
      rw [hcomps, compIdx]
      have := compIdxAux_append (GComp.id c) post c rfl pre 0 hprene
      rw [this]
      ring
    have hnn : ¬ compIdx st.comps (GComp.id c) < 0 := by
      rw [hidx]
      omega
    have hremoved : (panelRemove st c).1.comps = pre ++ post := by
      rw [panelRemove]
      simp only [hnn, if_false]
      rw [hidx, hcomps, Int.toNat_natCast]
      exact eraseIdx_append_len post c pre
    refine ⟨?_, ?_, ?_, ?_⟩
    · rw [panelRemove]
      simp [hnn]
    · rw [panelRemove]
      simp only [hnn, if_false]
      exact lookupPar_erasePar st.parents (GComp.id c)
    · rw [panelById, hremoved]
      rw [if_neg ?hside]
      case hside =>
        rw [panelRemove]
        simp only [hnn, if_false]
        exact Ne.symm hpid
      apply byIdList_eq_none
      rw [compIdsList_append]
      rw [List.mem_append]
      push_neg
      exact ⟨hpre, hpost⟩
    · rw [panelRemove]
      simp only [hnn, if_false]
      intro hmem
      have := (List.mem_filter.mp hmem).2
      simp at this

/-- Witness for the parent-consistency claim: adding a fresh leaf to an
empty panel links and finds it; removing it unlinks it, makes it
unfindable and drops its cell formatter. -/
theorem C4_parent_consistency_witness :
    (lookupPar (panelAdd (PanelSt.mk 1 [] [] []) (GComp.leaf 5)).parents 5 = some 1
      ∧ panelById (panelAdd (PanelSt.mk 1 [] [] []) (GComp.leaf 5)) 5
          = some (GComp.leaf 5))
    ∧ ((panelRemove (PanelSt.mk 1 [GComp.leaf 5] [5] [(5, 1)]) (GComp.leaf 5)).2 = true
      ∧ lookupPar (panelRemove (PanelSt.mk 1 [GComp.leaf 5] [5] [(5, 1)])
          (GComp.leaf 5)).1.parents 5 = none
      ∧ panelById (panelRemove (PanelSt.mk 1 [GComp.leaf 5] [5] [(5, 1)])
          (GComp.leaf 5)).1 5 = none
      ∧ (5 : Int) ∉ (panelRemove (PanelSt.mk 1 [GComp.leaf 5] [5] [(5, 1)])
          (GComp.leaf 5)).1.cellFmts) :=
  ⟨(C4_parent_consistency (PanelSt.mk 1 [] [] []) (GComp.leaf 5)).1
      rfl (by decide) (by simp [compIdsList]),
   (C4_parent_consistency (PanelSt.mk 1 [GComp.leaf 5] [5] [(5, 1)]) (GComp.leaf 5)).2
      [] [] rfl (by decide) (by simp [compIdsList]) (by simp [compIdsList])⟩


theorem compIdxIAux_bounds (x : Int) : ∀ (l : List Int) (k : Int),
    compIdxIAux x l k = -1
    ∨ (k ≤ compIdxIAux x l k ∧ compIdxIAux x l k < k + (l.length : Int)) := by
  intro l
  induction l with
  | nil => intro k; left; rfl
  | cons c cs ih =>
    intro k
    rw [compIdxIAux]
    by_cases hc : c = x
    · right
      rw [if_pos hc]
      simp only [List.length_cons]
      push_cast
      omega
    · rw [if_neg hc]
      rcases ih (k + 1) with hb | hb
      · left; exact hb
      · right
        simp only [List.length_cons]
        push_cast
        omega

theorem compIdxIAux_getElem (x : Int) : ∀ (l : List Int) (n : Nat) (k : Int),
    l.Nodup → l[n]? = some x → compIdxIAux x l k = k + (n : Int) := by
  intro l
  induction l with
  | nil => intro n k _ hg; simp at hg
  | cons c cs ih =>
    intro n k hnd hg
    cases n with
    | zero =>
      simp at hg
      rw [compIdxIAux, if_pos hg]
      simp
    | succ m =>
      rw [List.getElem?_cons_succ] at hg
      have hlt : m < cs.length := by
        by_contra hge
        rw [List.getElem?_eq_none (by omega)] at hg
        simp at hg
      have hmem : x ∈ cs := by
        rw [List.getElem?_eq_getElem hlt] at hg
        simp at hg
        rw [← hg]
        exact List.getElem_mem hlt
      have hne : c ≠ x := by
        intro he
        subst he
        exact (List.nodup_cons.mp hnd).1 hmem
      rw [compIdxIAux, if_neg hne,
        ih m (k + 1) (List.nodup_cons.mp hnd).2 hg]
      push_cast
      ring

theorem compIdxI_getElem (l : List Int) (n : Nat) (x : Int)
    (hnd : l.Nodup) (hget : l[n]? = some x) : compIdxI l x = (n : Int) := by
  rw [compIdxI, compIdxIAux_getElem x l n 0 hnd hget]
  ring

theorem compIdxI_bounds (l : List Int) (x : Int) :
    compIdxI l x = -1 ∨ (0 ≤ compIdxI l x ∧ compIdxI l x < (l.length : Int)) := by
  rcases compIdxIAux_bounds x l 0 with hb | hb
  · left; exact hb
  · right
    rw [compIdxI]
    omega

theorem compAtI_pos (l : List Int) (idx : Int) (h0 : 0 ≤ idx)
    (h1 : idx < (l.length : Int)) : compAtI l idx = l[idx.toNat]? := by
  rw [compAtI, if_pos (And.intro h0 h1)]

theorem compAtI_neg (l : List Int) (idx : Int)
    (h : ¬ (0 ≤ idx ∧ idx < (l.length : Int))) : compAtI l idx = none := by
  rw [compAtI, if_neg h]

theorem panelRemoveI_found (comps : List Int) (fmts : List (Int × List String))
    (x : Int) (i : Int) (hfind : compIdxI comps x = i) (hi : 0 ≤ i) :
    panelRemoveI comps fmts (some x)
      = some (comps.eraseIdx i.toNat, fmts.filter (fun p => p.1 ≠ x), true) := by
  rw [panelRemoveI]
  simp only [hfind]
  rw [if_neg (by omega)]

theorem setSelected_fields (st : TabPanelSt) (idx : Int)
    (hguard : ¬ idx ≥ (st.contents.length : Int))
    (hsel0 : 0 ≤ st.selected) (hselb : st.selected < (st.tabs.length : Int))
    (hnd : st.tabs.Nodup)
    (hidx0 : 0 ≤ idx) (hidxb : idx < (st.tabs.length : Int)) :
    (setSelected st idx).map (fun s => (s.selected, s.prevSelected, s.contents, s.tabs))
      = some (idx, st.selected, st.contents, st.tabs) := by
  have hselNat : st.selected.toNat < st.tabs.length := by omega
  have hge1 : st.tabs[st.selected.toNat]? = some (st.tabs[st.selected.toNat]) :=
    List.getElem?_eq_getElem hselNat
  have hca1 : compAtI st.tabs st.selected = some (st.tabs[st.selected.toNat]) := by
    rw [compAtI_pos st.tabs st.selected hsel0 hselb, hge1]
  have hix1 : compIdxI st.tabs (st.tabs[st.selected.toNat]) = (st.selected.toNat : Int) :=
    compIdxI_getElem _ _ _ hnd hge1
  have hidxNat : idx.toNat < st.tabs.length := by omega
  have hge2 : st.tabs[idx.toNat]? = some (st.tabs[idx.toNat]) :=
    List.getElem?_eq_getElem hidxNat
  have hca2 : compAtI st.tabs idx = some (st.tabs[idx.toNat]) := by
    rw [compAtI_pos st.tabs idx hidx0 hidxb, hge2]
  have hix2 : compIdxI st.tabs (st.tabs[idx.toNat]) = (idx.toNat : Int) :=
    compIdxI_getElem _ _ _ hnd hge2
  rw [setSelected]
  rw [if_neg hguard]
  simp only [if_pos hsel0, hca1, hix1]
  rw [if_neg (by omega)]
  simp only [if_pos hidx0, hca2, hix2]
  rw [if_neg (by omega)]
  rfl

theorem setSelected_panic (st : TabPanelSt) (idx : Int)
    (hguard : ¬ idx ≥ (st.contents.length : Int))
    (hsel0 : 0 ≤ st.selected) (hselb : ¬ st.selected < (st.tabs.length : Int)) :
    setSelected st idx = none := by
  have hca : compAtI st.tabs st.selected = none := by
    apply compAtI_neg
    omega
  rw [setSelected]
  rw [if_neg hguard]
  simp only [if_pos hsel0, hca]

theorem length_eraseIdx_lt {α : Type} : ∀ (l : List α) (n : Nat), n < l.length →
    (l.eraseIdx n).length = l.length - 1 := by
  intro l
  induction l with
  | nil => intro n h; simp at h
  | cons a t ih =>
    intro n h
    cases n with
    | zero => simp [List.eraseIdx]
    | succ m =>
      simp only [List.eraseIdx, List.length_cons]
      rw [ih m (by simpa using h)]
      simp only [List.length_cons] at h
      omega

theorem tabPanelRemoveCore_eq (st1 : TabPanelSt) (i : Int) :
    tabPanelRemoveCore st1 i
      = tabPanelRemoveSel
          { st1 with prevSelected := prevAfterRemove i st1.prevSelected } i := by
  rw [tabPanelRemoveCore, prevAfterRemove]
  by_cases h0 : st1.prevSelected ≥ 0
  · rw [if_pos h0, if_pos h0]
    by_cases h1 : i < st1.prevSelected
    · rw [if_pos h1, if_pos h1]
    · rw [if_neg h1, if_neg h1]
      by_cases h2 : i = st1.prevSelected
      · rw [if_pos h2, if_pos h2]
      · rw [if_neg h2, if_neg h2]
  · rw [if_neg h0, if_neg h0]

theorem tabPanelRemoveAt_eq (st : TabPanelSt) (i x t : Int)
    (hca : compAtI st.tabs i = some t)
    (hixT : compIdxI st.tabs t = i) (hi : 0 ≤ i)
    (hfind : compIdxI st.contents x = i) :
    tabPanelRemoveAt st i x = tabPanelRemoveCore
      ({ st with
          tabs := st.tabs.eraseIdx i.toNat
          tabFmts := st.tabFmts.filter (fun p => p.1 ≠ t)
          contents := st.contents.eraseIdx i.toNat
          contentFmts := st.contentFmts.filter (fun p => p.1 ≠ x) }) i := by
  rw [tabPanelRemoveAt, hca,
    panelRemoveI_found st.tabs st.tabFmts t i hixT hi,
    panelRemoveI_found st.contents st.contentFmts x i hfind hi]

/-- Claim C3 (amended): for a well-formed tab panel (aligned tab and
content lists, duplicate-free tab ids, a valid selected index) and the
content component `x` at index `i`: (a) removing below the selection
decrements the selected index; (b) when the selected index itself is
removed and a tab remains at that position, it becomes selected; (c) in
both cases the previously-selected field receives exactly the standard
index adjustment (decremented when the removed index is below it, -1 when
it was removed, unchanged otherwise) and is not overwritten by the
implicit selection change; but when the selected index is removed and it
was the last one, the implementation dereferences a nil cell formatter
inside `SetSelected` (a runtime panic) instead of selecting the last
remaining tab or clearing the selection. -/
theorem C3_tab_removal (st : TabPanelSt) (x i : Int)
    (hfind : compIdxI st.contents x = i) (hi : 0 ≤ i)
    (hlen : st.tabs.length = st.contents.length)
    (hnd : st.tabs.Nodup)
    (hsel0 : 0 ≤ st.selected) (hsel1 : st.selected < (st.contents.length : Int)) :
    (i < st.selected → ∃ st2, tabPanelRemove st x = some (st2, true)
      ∧ st2.selected = st.selected - 1
      ∧ st2.prevSelected = prevAfterRemove i st.prevSelected
      ∧ st2.contents = st.contents.eraseIdx i.toNat)
    ∧ (i = st.selected → i + 1 < (st.contents.length : Int) →
        ∃ st2, tabPanelRemove st x = some (st2, true)
        ∧ st2.selected = i
        ∧ st2.prevSelected = prevAfterRemove i st.prevSelected
        ∧ st2.contents = st.contents.eraseIdx i.toNat)
    ∧ (i = st.selected → i + 1 = (st.contents.length : Int) →
        tabPanelRemove st x = none) := by
  have hlenc : i < (st.contents.length : Int) := by
    rcases compIdxI_bounds st.contents x with hb | hb
    · rw [hfind] at hb; omega
    · rw [hfind] at hb; exact hb.2
  have hlent : i < (st.tabs.length : Int) := by omega
  have hiNat : i.toNat < st.tabs.length := by omega
  have hget : st.tabs[i.toNat]? = some (st.tabs[i.toNat]) :=
    List.getElem?_eq_getElem hiNat
  have hca : compAtI st.tabs i = some (st.tabs[i.toNat]) := by
    rw [compAtI_pos st.tabs i hi hlent, hget]
  have hixT : compIdxI st.tabs (st.tabs[i.toNat]) = i := by
    rw [compIdxI_getElem st.tabs i.toNat _ hnd hget]
    omega
  have hmain : tabPanelRemove st x = tabPanelRemoveAt st i x := by
    rw [tabPanelRemove, hfind, if_pos hi]
  rw [hmain, tabPanelRemoveAt_eq st i x (st.tabs[i.toNat]) hca hixT hi hfind,
    tabPanelRemoveCore_eq]
  have hclen : (st.contents.eraseIdx i.toNat).length = st.contents.length - 1 :=
    length_eraseIdx_lt st.contents i.toNat (by omega)
  have htlen : (st.tabs.eraseIdx i.toNat).length = st.tabs.length - 1 :=
    length_eraseIdx_lt st.tabs i.toNat hiNat
  refine ⟨?_, ?_, ?_⟩
  · intro hA
    rw [tabPanelRemoveSel]
    rw [if_pos (by simpa using hA)]
    exact ⟨_, rfl, rfl, rfl, rfl⟩
  · intro hB hB2
    rw [tabPanelRemoveSel]
    rw [if_neg (by simp; omega)]
    rw [if_pos (by simpa using hB)]
    rw [if_pos (by simp only [hclen]; omega)]
    have hfields := setSelected_fields
      ({ st with
          tabs := st.tabs.eraseIdx i.toNat
          tabFmts := st.tabFmts.filter (fun p => p.1 ≠ st.tabs[i.toNat])
          contents := st.contents.eraseIdx i.toNat
          contentFmts := st.contentFmts.filter (fun p => p.1 ≠ x)
          prevSelected := prevAfterRemove i st.prevSelected }) i
      (by simp only [hclen]; omega)
      hsel0
      (by simp only [htlen]; omega)
      ((List.eraseIdx_sublist st.tabs i.toNat).nodup hnd)
      hi
      (by simp only [htlen]; omega)
    rcases Option.map_eq_some'.mp hfields with ⟨st3, hset, hf⟩
    simp only [Prod.mk.injEq] at hf
    rw [hset]
    refine ⟨_, rfl, ?_, ?_, ?_⟩
    · simpa using hf.1
    · rfl
    · simpa using hf.2.2.1
  · intro hC hC2
    rw [tabPanelRemoveSel]
    rw [if_neg (by simp; omega)]
    rw [if_pos (by simpa using hC)]
    rw [if_neg (by simp only [hclen]; omega)]
    by_cases hz : i > 0
    · rw [if_pos hz]
      rw [setSelected_panic]
      · simp only [hclen]
        omega
      · exact hsel0
      · simp only [htlen]
        omega
    · rw [if_neg hz]
      rw [setSelected_panic]
      · simp only [hclen]
        omega
      · exact hsel0
      · simp only [htlen]
        omega

/-- Claim C3: two concrete refutations of the claim as stated.  On a tab
panel with three tabs, selected index 1 and previously-selected index 2,
removing the selected content (index 1) leaves the previously-selected
field at 1 — the standard index adjustment — not at its old value 2 as the
claim requires.  And on a panel ⟨2 tabs, selected 1⟩, removing the selected
last content does not select the last remaining tab: the implementation
panics on a nil cell formatter (modelled as `none`). -/
theorem C3_tab_removal_cex :
    tabEx.prevSelected = 2
    ∧ (tabPanelRemove tabEx 102).map (fun p => p.1.prevSelected) = some 1
    ∧ ¬ (tabPanelRemove tabEx 102).map (fun p => p.1.prevSelected) = some 2
    ∧ tabPanelRemove tabEx2 102 = none := by
  refine ⟨rfl, by decide, by decide, by decide⟩

/-- Witness for the amended tab-removal claim: removing content 101 at
index 0 of the concrete panel decrements the selection and adjusts the
previously-selected field. -/
theorem C3_tab_removal_witness :
    (tabPanelRemove tabEx 101).map
        (fun p => (p.1.selected, p.1.prevSelected, p.1.contents, p.2))
      = some (tabEx.selected - 1, prevAfterRemove 0 tabEx.prevSelected,
          tabEx.contents.eraseIdx 0, true) := by
  obtain ⟨st2, he, hs, hp, hc⟩ :=
    (C3_tab_removal tabEx 101 0 (by decide) (by decide) (by decide) (by decide)
      (by decide) (by decide)).1 (by decide)
  rw [he]
  simp [hs, hp, hc]

end Gwu
